import Mathlib

/-!
Verification of the `artisan` repository (files `_artifacts.py` and
`_namespaces.py`) against its natural-language specification.

The development shallowly embeds the repository's data model and operations:

* `Artisan.Ns`-prefixed definitions embed the `Namespace` class of
  `_namespaces.py` (a `dict` with attribute aliasing) as an association list
  with unique keys, which is exactly the data model of a Python `dict`
  (string keys, insertion order, single binding per key).
* `Artisan.identify` embeds `_identify` from `_artifacts.py`.
* `Artisan.buildTrace` embeds `_build` as an event trace: the sequence of
  filesystem effects (`mkdir`, metadata writes, invocation of the build
  operation) that `_build` performs, together with its outcome.
* `Artisan.artifactFromConf` embeds `_artifact_from_conf` over a sequential
  filesystem model: the root directory is a list of entries each carrying the
  metadata record that `_read_meta` yields for it, in scan order.
* `Artisan.getItem` / `Artisan.setItemArray` embed `__getitem__` and the array
  branch of `__setitem__`, over a directory modelled as an association list
  from file names to entries.
* `Artisan.extendH5` / `Artisan.createDset` embed `_extend_h5`, with an HDF5
  dataset modelled as dtype, trailing shape, first-axis length, chunk rows and
  flattened row data.
* `Artisan.readH5` embeds `_read_h5` over an explicit list of open-attempt
  outcomes (the environment of the retry loop); each retry sleeps 1 ms in the
  source, so total sleep time in ms equals the retry count returned.
* `Artisan.readMeta` embeds `_read_meta` over a YAML-value type, with the
  file's readability/parseability supplied as `Option (Option YVal)`
  (missing file / unparseable text / parsed value).

Machine integers do not occur (Python integers are unbounded); errors are
embedded as `Except`/`Option` results; infinite loops of the source
(unbounded polling in a sequential model) are embedded as `none`.
-/

namespace Artisan

/-! ## Association lists with Python-dict semantics

Python `dict`s keep one binding per key and preserve insertion order;
assignment to a present key replaces its value in place, assignment to an
absent key appends. These helpers model that behaviour and are shared by the
`Namespace` model and the directory models. -/

/-- Lookup of the binding of `k`, first match (a real `dict` has at most
one). -/
def lookupFS {α : Type} : List (String × α) → String → Option α
  | [], _ => none
  | (k0, v0) :: rest, k => if k0 = k then some v0 else lookupFS rest k

/-- Python `dict` assignment / filesystem write: replace the binding of `k` in
place if present, else append a new binding. -/
def insertFS {α : Type} : List (String × α) → String → α → List (String × α)
  | [], k, v => [(k, v)]
  | (k0, v0) :: rest, k, v =>
    if k0 = k then (k, v) :: rest else (k0, v0) :: insertFS rest k v

/-- Removal of the binding of `k` (Python `dict.__delitem__`, once the key is
known to be present). -/
def removeKey {α : Type} : List (String × α) → String → List (String × α)
  | [], _ => []
  | (k0, v0) :: rest, k => if k0 = k then rest else (k0, v0) :: removeKey rest k

theorem lookupFS_insertFS_self {α : Type} (ns : List (String × α)) (k : String)
    (v : α) : lookupFS (insertFS ns k v) k = some v := by
  induction ns with
  | nil => simp [insertFS, lookupFS]
  | cons hd tl ih =>
    by_cases h : hd.1 = k <;> simp [insertFS, lookupFS, h, ih]

theorem lookupFS_insertFS_other {α : Type} (ns : List (String × α))
    (k k2 : String) (v : α) (hne : k ≠ k2) :
    lookupFS (insertFS ns k v) k2 = lookupFS ns k2 := by
  induction ns with
  | nil => simp [insertFS, lookupFS, hne]
  | cons hd tl ih =>
    simp only [insertFS]
    split
    · rename_i hk
      have hne2 : hd.1 ≠ k2 := by rw [hk]; exact hne
      simp only [lookupFS, if_neg hne, if_neg hne2]
    · by_cases h2 : hd.1 = k2
      · simp [lookupFS, h2]
      · simp only [lookupFS, if_neg h2, ih]

theorem lookupFS_eq_none_of_not_mem {α : Type} (ns : List (String × α))
    (k : String) (h : k ∉ ns.map Prod.fst) : lookupFS ns k = none := by
  induction ns with
  | nil => rfl
  | cons hd tl ih =>
    simp only [List.map_cons, List.mem_cons, not_or] at h
    have hne : hd.1 ≠ k := fun he => h.1 he.symm
    simp only [lookupFS, if_neg hne]
    exact ih h.2

theorem mem_keys_insertFS {α : Type} (ns : List (String × α)) (k k2 : String)
    (v : α) (h : k2 ∈ (insertFS ns k v).map Prod.fst) :
    k2 ∈ ns.map Prod.fst ∨ k2 = k := by
  induction ns with
  | nil => simpa [insertFS] using h
  | cons hd tl ih =>
    simp only [insertFS] at h
    split at h
    · simp only [List.map_cons, List.mem_cons] at h
      rcases h with h | h
      · exact Or.inr h
      · exact Or.inl (by simp [h])
    · simp only [List.map_cons, List.mem_cons] at h
      rcases h with h | h
      · exact Or.inl (by simp [h])
      · rcases ih h with h2 | h2
        · exact Or.inl (by simp [h2])
        · exact Or.inr h2

theorem nodup_keys_insertFS {α : Type} (ns : List (String × α)) (k : String)
    (v : α) (h : (ns.map Prod.fst).Nodup) :
    ((insertFS ns k v).map Prod.fst).Nodup := by
  induction ns with
  | nil => simp [insertFS]
  | cons hd tl ih =>
    simp only [List.map_cons, List.nodup_cons] at h
    simp only [insertFS]
    split
    · rename_i hk
      simp only [List.map_cons, List.nodup_cons]
      exact ⟨hk ▸ h.1, h.2⟩
    · rename_i hk
      simp only [List.map_cons, List.nodup_cons]
      refine ⟨fun hmem => ?_, ih h.2⟩
      rcases mem_keys_insertFS tl k hd.1 v hmem with hm | hm
      · exact h.1 hm
      · exact hk hm

theorem lookupFS_removeKey_self {α : Type} (ns : List (String × α))
    (k : String) (h : (ns.map Prod.fst).Nodup) :
    lookupFS (removeKey ns k) k = none := by
  induction ns with
  | nil => rfl
  | cons hd tl ih =>
    simp only [List.map_cons, List.nodup_cons] at h
    simp only [removeKey]
    split
    · rename_i hk
      exact lookupFS_eq_none_of_not_mem tl k (hk ▸ h.1)
    · rename_i hk
      simp only [lookupFS, if_neg hk]
      exact ih h.2

/-! ## `Namespace` (`_namespaces.py`): a dict with attribute aliasing

`Namespace.__getattr__` calls `dict.__getitem__` and converts a `KeyError`
into an `AttributeError`; `Namespace.__setattr__` is `dict.__setitem__`;
`Namespace.__delattr__` is `dict.__delitem__`. Item-style access is the
inherited `dict` behaviour, so writing or deleting by item and by attribute
are the same single operation on the underlying dict. -/

/-- Failures of `Namespace` access: Python `KeyError` (item access) and
`AttributeError` (attribute access). -/
inductive NsErr where
  | keyNotFound (k : String)
  | missingAttr (k : String)
deriving DecidableEq

/-- Item read `ns[k]` — `dict.__getitem__`, raising `KeyError` when absent. -/
def nsGetItem {α : Type} (ns : List (String × α)) (k : String) :
    Except NsErr α :=
  match lookupFS ns k with
  | some v => Except.ok v
  | none => Except.error (NsErr.keyNotFound k)

/-- Attribute read `ns.k` — `Namespace.__getattr__`: try the item read and
turn its `KeyError` into an `AttributeError`. -/
def nsGetAttr {α : Type} (ns : List (String × α)) (k : String) :
    Except NsErr α :=
  match nsGetItem ns k with
  | Except.ok v => Except.ok v
  | Except.error _ => Except.error (NsErr.missingAttr k)

/-- Write `ns[k] = v` and `ns.k = v` — both are `dict.__setitem__`. -/
def nsSet {α : Type} (ns : List (String × α)) (k : String) (v : α) :
    List (String × α) :=
  insertFS ns k v

/-- Delete `del ns[k]` and `del ns.k` — both are `dict.__delitem__`, raising
`KeyError` when the key is absent. -/
def nsDel {α : Type} (ns : List (String × α)) (k : String) :
    Except NsErr (List (String × α)) :=
  match lookupFS ns k with
  | some _ => Except.ok (removeKey ns k)
  | none => Except.error (NsErr.keyNotFound k)

/-! ## Scope registry and `_identify` (`_artifacts.py`)

`_identify(type_)` is `next(sym for sym, t in get_scope().items() if t ==
type_)`: the first registry name whose registered type equals the given one;
when no entry matches, the bare `next` raises (the registry lookup fails).
Types are compared by `==`, which for classes is identity, so the registry
type `T` is abstract with decidable equality. -/

/-- Embedding of `_identify`: scan the scope registry (a name-to-type mapping,
in iteration order) for the first entry whose type matches; error when none
does. -/
def identify {T : Type} [DecidableEq T] : List (String × T) → T →
    Except Unit String
  | [], _ => Except.error ()
  | (sym, t0) :: rest, t =>
    if t0 = t then Except.ok sym else identify rest t

/-! ## `_build` (`_artifacts.py`) as an event trace

`_build` performs, in order: `artifact.path.mkdir(parents=True)` (which
raises if the directory already exists), a metadata write of
`{spec, status: running}`, the optional invocation of the type's `build`
operation, and a final metadata write of `{spec, status: done}` on normal
completion or `{spec, status: stopped}` on any raised failure, which is then
re-raised unchanged. Nothing is ever deleted. The trace records these
effects; the outcome records how `_build` returns. The build operation is
supplied as `Option (Except ε Unit)`: `none` when the type declares no
callable `build` (the `callable(getattr(...))` check), `some (ok ())` when it
completes normally, `some (error e)` when it raises `e`. -/

/-- Build lifecycle status persisted in `_meta.yaml`. -/
inductive Status where
  | running
  | done
  | stopped
deriving DecidableEq

/-- Filesystem effects performed by `_build`, in order. -/
inductive BEvent (ε σ : Type) where
  | mkdirOk
  | wroteMeta (spec : σ) (status : Status)
  | ranBuildOp
deriving DecidableEq

/-- How `_build` returns. -/
inductive BuildRes (ε : Type) where
  | ok
  | mkdirExists
  | raised (e : ε)
deriving DecidableEq

/-- Embedding of `_build`: the ordered effect trace and the outcome, given
whether the artifact's directory already exists and the build operation's
behaviour. -/
def buildTrace {ε σ : Type} (dirExists : Bool) (op : Option (Except ε Unit))
    (s : σ) : List (BEvent ε σ) × BuildRes ε :=
  if dirExists then ([], BuildRes.mkdirExists)
  else
    match op with
    | none =>
        ([BEvent.mkdirOk, BEvent.wroteMeta s Status.running,
          BEvent.wroteMeta s Status.done], BuildRes.ok)
    | some (Except.ok _) =>
        ([BEvent.mkdirOk, BEvent.wroteMeta s Status.running, BEvent.ranBuildOp,
          BEvent.wroteMeta s Status.done], BuildRes.ok)
    | some (Except.error e) =>
        ([BEvent.mkdirOk, BEvent.wroteMeta s Status.running, BEvent.ranBuildOp,
          BEvent.wroteMeta s Status.stopped], BuildRes.raised e)

/-- The last metadata record persisted in a trace, if any. -/
def finalMeta {ε σ : Type} (tr : List (BEvent ε σ)) : Option (σ × Status) :=
  (tr.filterMap fun ev => match ev with
    | BEvent.wroteMeta sp st => some (sp, st)
    | _ => none).getLast?

/-! ## `_new_artifact_path` (`_artifacts.py`)

`_new_artifact_path` formats candidate directory names as
`f'{type_name}_{i:04x}'` for `i = 0, 1, 2, ...` and returns the first
candidate that does not already exist in the root directory. The Python
format `{i:04x}` is lowercase hexadecimal, zero-padded on the left to at
least four characters. The unbounded `itertools.count()` loop terminates
because the candidates are pairwise distinct and the directory has finitely
many entries; the embedding runs the same scan with fuel that the pigeonhole
argument below shows is always sufficient. -/

/-- Lowercase hexadecimal digit character. -/
def hexChar (d : Nat) : Char :=
  "0123456789abcdef".toList.getD d 'x'

/-- Numeric value of a lowercase hexadecimal digit character (left inverse of
`hexChar` on digits below 16, used only to prove injectivity of the generated
names). -/
def hexVal (c : Char) : Nat :=
  if c = '0' then 0 else if c = '1' then 1 else if c = '2' then 2
  else if c = '3' then 3 else if c = '4' then 4 else if c = '5' then 5
  else if c = '6' then 6 else if c = '7' then 7 else if c = '8' then 8
  else if c = '9' then 9 else if c = 'a' then 10 else if c = 'b' then 11
  else if c = 'c' then 12 else if c = 'd' then 13 else if c = 'e' then 14
  else 15

/-- Little-endian base-16 digits, by structural recursion on a fuel bound so
that the kernel can evaluate it (shown equal to `Nat.digits 16` below). -/
def hexDigitsCore : Nat → Nat → List Nat
  | _, 0 => []
  | 0, _ + 1 => []
  | fuel + 1, n + 1 => (n + 1) % 16 :: hexDigitsCore fuel ((n + 1) / 16)

/-- Little-endian base-16 digits of `n` (empty for `0`). -/
def hexDigits (n : Nat) : List Nat :=
  hexDigitsCore n n

theorem hexDigitsCore_eq (fuel : Nat) :
    ∀ n, n ≤ fuel → hexDigitsCore fuel n = Nat.digits 16 n := by
  induction fuel with
  | zero =>
    intro n h
    interval_cases n
    simp [hexDigitsCore]
  | succ fuel ih =>
    intro n h
    cases n with
    | zero => simp [hexDigitsCore]
    | succ n2 =>
      rw [hexDigitsCore]
      rw [ih ((n2 + 1) / 16)
        (by
          have := Nat.div_lt_self (Nat.succ_pos n2) (by norm_num : 1 < 16)
          omega)]
      rw [Nat.digits_def' (by norm_num : 1 < 16) (Nat.succ_pos n2)]

theorem hexDigits_eq (n : Nat) : hexDigits n = Nat.digits 16 n :=
  hexDigitsCore_eq n n le_rfl

/-- Base-16 digits of `i`, little-endian, zero-padded to at least four
digits (the `04` in `{i:04x}`). -/
def hexDigits4 (i : Nat) : List Nat :=
  hexDigits i ++ List.replicate (4 - (hexDigits i).length) 0

/-- The characters of `f'{i:04x}'`: big-endian rendering of `hexDigits4`. -/
def hexChars4 (i : Nat) : List Char :=
  (hexDigits4 i).reverse.map hexChar

/-- The candidate name `f'{type_name}_{i:04x}'`. -/
def hexName (tn : String) (i : Nat) : String :=
  String.mk (tn.data ++ '_' :: hexChars4 i)

/-- Decoder for `hexChars4`, the witness that the formatting is injective. -/
def decodeHex (cs : List Char) : Nat :=
  Nat.ofDigits 16 (cs.reverse.map hexVal)

theorem hexVal_hexChar (d : Nat) (h : d < 16) : hexVal (hexChar d) = d := by
  interval_cases d <;> rfl

theorem ofDigits_replicate_zero (k : Nat) :
    Nat.ofDigits 16 (List.replicate k 0) = 0 := by
  induction k with
  | zero => rfl
  | succ k ih => simp [List.replicate_succ, Nat.ofDigits_cons, ih]

theorem hexDigits4_lt (i : Nat) : ∀ d ∈ hexDigits4 i, d < 16 := by
  intro d hd
  rcases List.mem_append.mp hd with h | h
  · rw [hexDigits_eq] at h
    exact Nat.digits_lt_base (by norm_num) h
  · rw [List.eq_of_mem_replicate h]
    norm_num

theorem decodeHex_hexChars4 (i : Nat) : decodeHex (hexChars4 i) = i := by
  unfold decodeHex hexChars4
  simp only [List.map_reverse, List.reverse_reverse, List.map_map]
  have hmap : (hexDigits4 i).map (hexVal ∘ hexChar) = hexDigits4 i := by
    have h : ∀ d ∈ hexDigits4 i, (hexVal ∘ hexChar) d = id d :=
      fun d hd => hexVal_hexChar d (hexDigits4_lt i d hd)
    rw [List.map_congr_left h, List.map_id]
  rw [hmap]
  unfold hexDigits4
  rw [hexDigits_eq, Nat.ofDigits_append, Nat.ofDigits_digits,
    ofDigits_replicate_zero]
  simp

theorem hexName_injective (tn : String) : Function.Injective (hexName tn) := by
  intro i j h
  unfold hexName at h
  injection h with h
  have h2 := List.append_cancel_left h
  injection h2 with _ h3
  have h4 := congrArg decodeHex h3
  rwa [decodeHex_hexChars4, decodeHex_hexChars4] at h4

def newArtifactPathAux (tn : String) (names : List String) :
    Nat → Nat → String
  | _, 0 => ""
  | i, fuel + 1 =>
    if hexName tn i ∈ names then newArtifactPathAux tn names (i + 1) fuel
    else hexName tn i

/-- Embedding of `_new_artifact_path`: first unused candidate name, scanning
from `i = 0`, over the list of names present in the root directory. -/
def newArtifactPath (tn : String) (names : List String) : String :=
  newArtifactPathAux tn names 0 (names.length + 1)

theorem newArtifactPathAux_not_mem (tn : String) (names : List String) :
    ∀ fuel i, ¬(∀ k < fuel, hexName tn (i + k) ∈ names) →
      newArtifactPathAux tn names i fuel ∉ names := by
  intro fuel
  induction fuel with
  | zero =>
    intro i h
    exact absurd (fun k hk => absurd hk (Nat.not_lt_zero k)) h
  | succ fuel ih =>
    intro i h
    simp only [newArtifactPathAux]
    split
    · rename_i hmem
      apply ih (i + 1)
      intro hall
      apply h
      intro k hk
      cases k with
      | zero => simpa using hmem
      | succ k2 =>
        have h2 := hall k2 (Nat.lt_of_succ_lt_succ hk)
        rw [show i + (k2 + 1) = i + 1 + k2 by omega]
        exact h2
    · rename_i hmem
      exact hmem

theorem hexCandidates_not_all_mem (tn : String) (names : List String) :
    ¬(∀ k < names.length + 1, hexName tn (0 + k) ∈ names) := by
  intro hall
  have hinj : Function.Injective fun k : Nat => hexName tn (0 + k) := by
    intro a b hab
    have := hexName_injective tn hab
    omega
  have hsub : (Finset.range (names.length + 1)).image
      (fun k => hexName tn (0 + k)) ⊆ names.toFinset := by
    intro x hx
    rcases Finset.mem_image.mp hx with ⟨k, hk, rfl⟩
    exact List.mem_toFinset.mpr (hall k (Finset.mem_range.mp hk))
  have hcard := Finset.card_le_card hsub
  rw [Finset.card_image_of_injective _ hinj, Finset.card_range] at hcard
  exact absurd (le_trans hcard (List.toFinset_card_le names)) (by omega)

/-- The freshly generated path is unused: `_new_artifact_path` returns a name
that is not an existing entry of the root directory. -/
theorem newArtifactPath_not_mem (tn : String) (names : List String) :
    newArtifactPath tn names ∉ names :=
  newArtifactPathAux_not_mem tn names (names.length + 1) 0
    (hexCandidates_not_all_mem tn names)

/-! ## `_artifact_from_conf` (`_artifacts.py`) over a sequential root model

The root directory is modelled in scan order as a list of entries, each
carrying the metadata record that `_read_meta` yields for it (`spec` is
`none` for a foreign or metadata-less entry, which never equals the
candidate's spec — in Python, `None == spec` is false). The source loop
reads, for each entry, `meta = _read_meta(path)` and compares `meta.spec ==
spec`; on a match it polls while `meta.status == 'running'` (10 ms period),
then returns the artifact bound to that path if the status is `'done'`, and
otherwise keeps scanning; the `for`/`else` branch builds at a fresh path when
the loop finds nothing to return. In this sequential model the filesystem
does not change while polling, so a matching `running` entry makes the
source spin forever, embedded as `none`. -/

/-- A metadata record as `_read_meta` yields it for a directory entry. -/
structure MetaRec (σ : Type) where
  spec : Option σ
  status : Status
deriving DecidableEq

/-- The root directory: entries with their metadata records, in scan order. -/
abbrev RootDir (σ : Type) : Type := List (String × MetaRec σ)

/-- Result of the scan loop of `_artifact_from_conf`. -/
inductive ScanOutcome where
  | diverge
  | found (p : String)
  | noMatch
deriving DecidableEq

/-- The scan loop of `_artifact_from_conf`: first entry with a matching spec
and status `done` is returned; matching `stopped` entries are passed over;
a matching `running` entry is polled forever (sequentially: divergence);
non-matching entries are skipped. -/
def scanRoot {σ : Type} [DecidableEq σ] (s : σ) : RootDir σ → ScanOutcome
  | [] => ScanOutcome.noMatch
  | (p, m) :: rest =>
    if m.spec = some s then
      match m.status with
      | Status.running => ScanOutcome.diverge
      | Status.done => ScanOutcome.found p
      | Status.stopped => scanRoot s rest
    else scanRoot s rest

/-- How `_artifact_from_conf` returns: an artifact bound to an existing path
(no build), an artifact built at a new path, or the re-raised build failure
(which `_build` recorded as `stopped` first). -/
inductive ConfOutcome (ε : Type) where
  | found (p : String)
  | built (p : String)
  | buildFailed (p : String) (e : ε)
deriving DecidableEq

/-- Embedding of `_artifact_from_conf`: scan the root for a matching spec;
reuse the first `done` match; otherwise build at a fresh path via `_build`
(whose effect on the root is the final metadata record it persists — `done`
on normal completion of the build operation `op`, `stopped` when `op`
raises). Returns the updated root directory and the outcome; `none` embeds
the unbounded poll on a matching `running` entry. -/
def artifactFromConf {σ ε : Type} [DecidableEq σ] (tn : String) (s : σ)
    (op : Option (Except ε Unit)) (st : RootDir σ) :
    Option (RootDir σ × ConfOutcome ε) :=
  match scanRoot s st with
  | ScanOutcome.diverge => none
  | ScanOutcome.found p => some (st, ConfOutcome.found p)
  | ScanOutcome.noMatch =>
    let p := newArtifactPath tn (st.map Prod.fst)
    match op with
    | some (Except.error e) =>
        some (st ++ [(p, MetaRec.mk (some s) Status.stopped)],
          ConfOutcome.buildFailed p e)
    | _ =>
        some (st ++ [(p, MetaRec.mk (some s) Status.done)],
          ConfOutcome.built p)

theorem scanRoot_eq_noMatch {σ : Type} [DecidableEq σ] (s : σ) (st : RootDir σ)
    (h : ∀ r ∈ st, r.2.spec = some s → r.2.status = Status.stopped) :
    scanRoot s st = ScanOutcome.noMatch := by
  induction st with
  | nil => rfl
  | cons hd tl ih =>
    rcases hd with ⟨p, m⟩
    simp only [scanRoot]
    split
    · rename_i hspec
      have hst := h (p, m) (List.mem_cons_self _ _) hspec
      rw [hst]
      exact ih fun r hr => h r (List.mem_cons_of_mem _ hr)
    · exact ih fun r hr => h r (List.mem_cons_of_mem _ hr)

theorem scanRoot_found_first_done {σ : Type} [DecidableEq σ] (s : σ)
    (pre post : RootDir σ) (p0 : String)
    (h : ∀ r ∈ pre, r.2.spec = some s → r.2.status = Status.stopped) :
    scanRoot s (pre ++ (p0, MetaRec.mk (some s) Status.done) :: post) =
      ScanOutcome.found p0 := by
  induction pre with
  | nil => simp [scanRoot]
  | cons hd tl ih =>
    rcases hd with ⟨p, m⟩
    simp only [List.cons_append, scanRoot]
    split
    · rename_i hspec
      have hst := h (p, m) (List.mem_cons_self _ _) hspec
      rw [hst]
      exact ih fun r hr => h r (List.mem_cons_of_mem _ hr)
    · exact ih fun r hr => h r (List.mem_cons_of_mem _ hr)

/-! ## Filename suffixes (`pathlib` semantics)

Artifact keys dispatch on `path.suffix` and are mapped to array-file names
with `path.with_suffix('.h5')`. For a single path component, `pathlib`'s
suffix is the part from the last `.` on, provided there is a nonempty part
before the dot and a nonempty part after it (`'x.ext'` has suffix `'.ext'`;
`'x'`, `'.bashrc'` and `'x.'` have none), and `with_suffix('.h5')` replaces
that suffix (or appends when there is none). -/

/-- Split a component at its last dot: `some (before, after)`, or `none` when
it has no dot. -/
def splitLastDot : List Char → Option (List Char × List Char)
  | [] => none
  | c :: rest =>
    match splitLastDot rest with
    | some (st, ex) => some (c :: st, ex)
    | none => if c = '.' then some ([], rest) else none

/-- `pathlib` suffix of a single component, dot included. -/
def pySuffix (s : String) : Option String :=
  match splitLastDot s.data with
  | some (st, ex) =>
    if st ≠ [] ∧ ex ≠ [] then some (String.mk ('.' :: ex)) else none
  | none => none

/-- `path.with_suffix('.h5')` on a single component. -/
def withSuffixH5 (s : String) : String :=
  match splitLastDot s.data with
  | some (st, ex) =>
    if st ≠ [] ∧ ex ≠ [] then String.mk st ++ ".h5" else s ++ ".h5"
  | none => s ++ ".h5"

theorem withSuffixH5_of_no_suffix (s : String) (h : pySuffix s = none) :
    withSuffixH5 s = s ++ ".h5" := by
  unfold pySuffix at h
  unfold withSuffixH5
  split
  · rename_i st ex heq
    rw [heq] at h
    dsimp only at h
    split
    · rename_i hcond
      rw [if_pos hcond] at h
      exact absurd h (by simp)
    · rfl
  · rfl

/-! ## Directory entries and the mapping interface (`Artifact` methods)

An artifact's directory is an association list from file names (extension
included) to entries: a single-dataset HDF5 array file, a plain (encoded)
file, or a subdirectory. An array is modelled by its dtype (NumPy type
name), shape and row-major flattened contents — `numpy.asarray` has already
been applied, and Python integers are unbounded, so elements are `Int`. -/

/-- A NumPy array: dtype name, shape, and row-major flattened contents. -/
structure NDArray where
  dtype : String
  shape : List Nat
  data : List Int
deriving DecidableEq

/-- A directory entry: array file (`.h5`), plain file, or subdirectory. -/
inductive Entry where
  | arrE (d : NDArray)
  | fileE (content : List Nat)
  | dirE
deriving DecidableEq

/-- An artifact's directory: file names (extension included) to entries. -/
abbrev ArtDir : Type := List (String × Entry)

/-- What `Artifact.__getitem__` returns: a live dataset handle, a plain file
path, or a (possibly not-yet-existing) nested artifact bound to a path. -/
inductive GetRes where
  | arrR (d : NDArray)
  | pathR (p : String)
  | subR (p : String)
deriving DecidableEq

/-- Embedding of `Artifact.__getitem__`: if a file exists at the
`.h5`-suffixed key, read it with `_read_h5` (a live handle to its dataset
when it is an HDF5 container; a non-HDF5 file at that name makes `_read_h5`
retry forever, embedded as `none`); else if a plain file exists at the key
itself, return its path; else return a nested artifact at the key's path. -/
def getItem (fs : ArtDir) (key : String) : Option GetRes :=
  match lookupFS fs (withSuffixH5 key) with
  | some (Entry.arrE d) => some (GetRes.arrR d)
  | some (Entry.fileE _) => none
  | _ =>
    match lookupFS fs key with
    | some Entry.dirE => some (GetRes.subR key)
    | some _ => some (GetRes.pathR key)
    | none => some (GetRes.subR key)

/-- Model of `_write_h5`. The in-place branch (existing dataset with equal
dtype whose shape the assignment matches) stores `val`; every failure — the
explicit `ValueError` on a dtype mismatch, a failing assignment, a missing or
non-dataset entry — is caught, the entry is removed and recreated as a fresh
single-dataset container holding exactly `val`, switched to SWMR mode. In
every modelled branch the stored array is `val`; in-place writes that rely on
NumPy broadcasting from a smaller-shaped `val` are outside the model. -/
def writeH5 (old : Option Entry) (v : NDArray) : NDArray :=
  match old with
  | some (Entry.arrE a) =>
    if a.dtype = v.dtype ∧ a.shape = v.shape then v
    else v
  | _ => v

/-- Embedding of the array branch of `Artifact.__setitem__` (the `else`
branch: `val` is neither a `Path` nor a mapping): assert the key carries no
extension, then `_write_h5` at the `.h5`-suffixed name. `none` embeds the
`AssertionError` on a suffixed key. -/
def setItemArray (fs : ArtDir) (key : String) (v : NDArray) : Option ArtDir :=
  if pySuffix key = none then
    some (insertFS fs (withSuffixH5 key)
      (Entry.arrE (writeH5 (lookupFS fs (withSuffixH5 key)) v)))
  else none

/-! ## `_extend_h5` (`_artifacts.py`)

An appendable HDF5 dataset is modelled by its dtype, its fixed trailing
("row") shape, its first-axis maximum length (`none` = unbounded), its chunk
length along the first axis, its current first-axis length, and its
flattened row data. -/

/-- An appendable single-dataset HDF5 container (`f['data']`). -/
structure Dset where
  dtype : String
  rowShape : List Nat
  maxLen : Option Nat
  chunkRows : Nat
  len : Nat
  data : List Int
deriving DecidableEq

/-- The first-axis chunk length computed at creation:
`int(np.ceil(2**12 / np.prod(val.shape[1:])))`. For a positive trailing
product `P` the float ceiling equals the exact ceiling `(4096 + P - 1) / P`
(when `P` divides `4096 = 2^12` the quotient is an exact double; otherwise
the quotient's distance to the next integer, at least `1/P`, exceeds its
rounding error `4096/P * 2^-52`). For `P = 0` (a zero-sized trailing
dimension) the NumPy division yields infinity with a divide-by-zero warning
and `int(inf)` raises `OverflowError`, so creation fails: embedded as
`none`. An empty trailing shape (1-D value) has empty product `P = 1`. -/
def chunkRowsOf (trail : List Nat) : Option Nat :=
  if trail.prod = 0 then none
  else some ((2 ^ 12 + trail.prod - 1) / trail.prod)

/-- Dataset creation inside `_extend_h5` when no `data` dataset exists:
an initially empty (`0`-length) dataset of `val`'s element type, trailing
shape taken from `val`, unbounded resizable first axis
(`maxshape = (None, *val.shape[1:])`), and the chunk length above; the
container is then switched to SWMR mode. -/
def createDset (v : NDArray) : Option Dset :=
  match chunkRowsOf v.shape.tail with
  | none => none
  | some c => some (Dset.mk v.dtype v.shape.tail none c 0 [])

/-- Embedding of `_extend_h5`: create the dataset if absent (above), then, if
`val` has one or more rows, grow the first axis by the number of new rows and
write the new rows into the tail region, flushing for concurrent readers;
appending zero rows stops after the creation step. `none` embeds the failure
cases: a 0-d `val` (`len(val)` raises `TypeError`), a creation that divides
by a zero trailing dimension, and a tail assignment whose rows do not fit the
dataset (mismatched trailing shape or element type), which raises in h5py. -/
def extendH5 (old : Option Dset) (v : NDArray) : Option Dset :=
  match v.shape with
  | [] => none
  | n :: tr =>
    match (match old with | none => createDset v | some d => some d) with
    | none => none
    | some d =>
      if n = 0 then some d
      else if d.rowShape = tr ∧ d.dtype = v.dtype then
        some (Dset.mk d.dtype d.rowShape d.maxLen d.chunkRows (d.len + n)
          (d.data ++ v.data))
      else none

/-! ## `_read_h5` (`_artifacts.py`)

`_read_h5` opens the file in SWMR read mode; an `OSError` whose message
carries `errno = 2` (file not found) is re-raised immediately, any other
open failure sleeps 1 ms and retries, with no bound. The sequence of open
outcomes the environment would deliver is an explicit argument; the result
pairs the return (`ok` with the `data` dataset handle, `error` for the
re-raised not-found failure, `none` while only transient failures occur —
the spin never returns) with the number of 1 ms sleeps performed. -/

/-- An opened HDF5 file, exposing its single dataset `data`. -/
structure H5FileM (D : Type) where
  data : D
deriving DecidableEq

/-- Outcome of one `h5py.File(path, 'r', swmr=True)` attempt. -/
inductive OpenAttempt (D : Type) where
  | openOk (f : H5FileM D)
  | noFile
  | transient
deriving DecidableEq

/-- Sleep interval of the `_read_h5` retry loop, in milliseconds. -/
def readSleepMs : Nat := 1

/-- Embedding of `_read_h5` over the sequence of open-attempt outcomes:
first attempt that is not a transient failure decides the result; each
transient failure adds one sleep of `readSleepMs`. -/
def readH5 {D : Type} : List (OpenAttempt D) → Option (Except Unit D) × Nat
  | [] => (none, 0)
  | OpenAttempt.openOk f :: _ => (some (Except.ok f.data), 0)
  | OpenAttempt.noFile :: _ => (some (Except.error ()), 0)
  | OpenAttempt.transient :: rest =>
    ((readH5 rest).1, (readH5 rest).2 + 1)

/-! ## `_read_meta` (`_artifacts.py`)

`_read_meta` reads `{path}/_meta.yaml`, parses it with a YAML parser,
converts the result with `namespacify` (mappings become `Namespace`s), and
asserts that the result is a mapping, that its `spec` field is a mapping and
that its `status` field is a string; any failure anywhere (missing file,
unreadable text, parse error, failed assertion, missing field) is caught by
the bare `except:` and replaced by `Namespace(spec=None, status='done')`.
The file system's answer is supplied as `Option (Option YVal)`: `none` for a
missing/unreadable file, `some none` for text the parser rejects, and
`some (some v)` for a successful parse of `v`. -/

/-- A parsed YAML/JSON value, after `namespacify`. -/
inductive YVal where
  | null : YVal
  | boolV : Bool → YVal
  | intV : Int → YVal
  | strV : String → YVal
  | listV : List YVal → YVal
  | mapV : List (String × YVal) → YVal

/-- The permissive default record `Namespace(spec=None, status='done')`. -/
def defaultMeta : YVal :=
  YVal.mapV [("spec", YVal.null), ("status", YVal.strV "done")]

/-- Embedding of `_read_meta`: the parsed record when it is a mapping with a
mapping-valued `spec` and a string-valued `status` (asserted in that order),
the default record otherwise; never an error. -/
def readMeta (file : Option (Option YVal)) : YVal :=
  match file with
  | some (some (YVal.mapV kvs)) =>
    match lookupFS kvs "spec" with
    | some (YVal.mapV _) =>
      match lookupFS kvs "status" with
      | some (YVal.strV _) => YVal.mapV kvs
      | _ => defaultMeta
    | _ => defaultMeta
  | _ => defaultMeta

/-! # Claims -/

/-- C7: In a `Namespace`, after a key is set (item and attribute assignment
are the same dict write), its value is readable both as an item and as the
same-named attribute; deleting it (item and attribute deletion are the same
dict delete) removes both views; and reading an absent key yields a
`missing attribute` error under attribute access and a `key not found` error
under item access, and the two errors are distinguishable. -/
theorem namespace_item_attr_duality {α : Type} (ns : List (String × α))
    (k : String) (v : α) (hnd : (ns.map Prod.fst).Nodup) :
    nsGetItem (nsSet ns k v) k = Except.ok v
    ∧ nsGetAttr (nsSet ns k v) k = Except.ok v
    ∧ (∃ ns2, nsDel (nsSet ns k v) k = Except.ok ns2
        ∧ nsGetItem ns2 k = Except.error (NsErr.keyNotFound k)
        ∧ nsGetAttr ns2 k = Except.error (NsErr.missingAttr k))
    ∧ (lookupFS ns k = none →
        nsGetItem ns k = Except.error (NsErr.keyNotFound k)
        ∧ nsGetAttr ns k = Except.error (NsErr.missingAttr k))
    ∧ NsErr.keyNotFound k ≠ NsErr.missingAttr k := by
  have h1 : lookupFS (nsSet ns k v) k = some v := lookupFS_insertFS_self ns k v
  have h2 : lookupFS (removeKey (nsSet ns k v) k) k = none :=
    lookupFS_removeKey_self _ k (nodup_keys_insertFS ns k v hnd)
  refine ⟨?_, ?_, ?_, ?_, by simp⟩
  · unfold nsGetItem
    rw [h1]
  · unfold nsGetAttr nsGetItem
    rw [h1]
  · refine ⟨removeKey (nsSet ns k v) k, ?_, ?_, ?_⟩
    · unfold nsDel
      rw [h1]
    · unfold nsGetItem
      rw [h2]
    · unfold nsGetAttr nsGetItem
      rw [h2]
  · intro habs
    constructor
    · unfold nsGetItem
      rw [habs]
    · unfold nsGetAttr nsGetItem
      rw [habs]

theorem namespace_item_attr_duality_witness :
    (([("a", 5)] : List (String × Nat)).map Prod.fst).Nodup
    ∧ nsGetItem (nsSet ([("a", 5)] : List (String × Nat)) "k" 7) "k" =
        Except.ok 7
    ∧ nsGetAttr (nsSet ([("a", 5)] : List (String × Nat)) "k" 7) "k" =
        Except.ok 7
    ∧ NsErr.keyNotFound "k" ≠ NsErr.missingAttr "k" :=
  ⟨by decide,
   (namespace_item_attr_duality [("a", 5)] "k" 7 (by decide)).1,
   (namespace_item_attr_duality [("a", 5)] "k" 7 (by decide)).2.1,
   (namespace_item_attr_duality [("a", 5)] "k" 7 (by decide)).2.2.2.2⟩

/-- C9: `_identify` returns a name under which the given live type is
registered in the scope registry (the first one, in registry order), and
fails when no registry entry's type matches by identity. -/
theorem identify_registry {T : Type} [DecidableEq T]
    (scope : List (String × T)) (t : T) :
    ((∀ p ∈ scope, p.2 ≠ t) → identify scope t = Except.error ())
    ∧ (∀ sym, identify scope t = Except.ok sym → (sym, t) ∈ scope)
    ∧ ((∃ p ∈ scope, p.2 = t) → ∃ sym, identify scope t = Except.ok sym) := by
  refine ⟨?_, ?_, ?_⟩
  · intro h
    induction scope with
    | nil => rfl
    | cons hd tl ih =>
      rcases hd with ⟨sym0, t0⟩
      have hne : t0 ≠ t := h (sym0, t0) (List.mem_cons_self _ _)
      simp only [identify, if_neg hne]
      exact ih fun p hp => h p (List.mem_cons_of_mem _ hp)
  · intro sym hok
    induction scope with
    | nil => exact absurd hok (by simp [identify])
    | cons hd tl ih =>
      rcases hd with ⟨sym0, t0⟩
      by_cases he : t0 = t
      · subst he
        simp only [identify, if_pos rfl] at hok
        injection hok with hok
        subst hok
        exact List.mem_cons_self _ _
      · simp only [identify, if_neg he] at hok
        exact List.mem_cons_of_mem _ (ih hok)
  · intro hex
    induction scope with
    | nil => simp at hex
    | cons hd tl ih =>
      rcases hd with ⟨sym0, t0⟩
      by_cases he : t0 = t
      · exact ⟨sym0, by simp [identify, he]⟩
      · simp only [identify, if_neg he]
        apply ih
        rcases hex with ⟨p, hp, hpt⟩
        rcases List.mem_cons.mp hp with rfl | hp2
        · exact absurd hpt he
        · exact ⟨p, hp2, hpt⟩

theorem identify_registry_witness :
    identify ([("A", 0), ("B", 1)] : List (String × Nat)) 2 = Except.error ()
    ∧ ("B", 1) ∈ ([("A", 0), ("B", 1)] : List (String × Nat)) :=
  ⟨(identify_registry [("A", 0), ("B", 1)] 2).1 (by decide),
   (identify_registry [("A", 0), ("B", 1)] 1).2.1 "B" rfl⟩

/-- C2: `_build` on a nonexistent directory creates the directory (failing
when it already exists), persists `(spec, running)` before invoking the build
operation, persists `(spec, done)` exactly when the build operation (or the
no-op case of an absent build operation) completes normally, and on a raised
failure persists `(spec, stopped)` and re-raises the original failure
unchanged; the trace contains no cleanup effect, so the directory and its
contents stay on disk. -/
theorem build_lifecycle {ε σ : Type} (s : σ) (e : ε)
    (op : Option (Except ε Unit)) :
    buildTrace (ε := ε) true op s = ([], BuildRes.mkdirExists)
    ∧ buildTrace (ε := ε) false none s =
        ([BEvent.mkdirOk, BEvent.wroteMeta s Status.running,
          BEvent.wroteMeta s Status.done], BuildRes.ok)
    ∧ buildTrace (ε := ε) false (some (Except.ok ())) s =
        ([BEvent.mkdirOk, BEvent.wroteMeta s Status.running, BEvent.ranBuildOp,
          BEvent.wroteMeta s Status.done], BuildRes.ok)
    ∧ buildTrace false (some (Except.error e)) s =
        ([BEvent.mkdirOk, BEvent.wroteMeta s Status.running, BEvent.ranBuildOp,
          BEvent.wroteMeta s Status.stopped], BuildRes.raised e)
    ∧ (buildTrace false op s).1.take 2 =
        [BEvent.mkdirOk, BEvent.wroteMeta s Status.running]
    ∧ (finalMeta (buildTrace false op s).1 = some (s, Status.done) ↔
        (buildTrace false op s).2 = BuildRes.ok) := by
  refine ⟨rfl, rfl, rfl, rfl, ?_, ?_⟩
  · rcases op with _ | op2
    · rfl
    · rcases op2 with u | e2
      · rfl
      · rfl
  · rcases op with _ | op2
    · simp [buildTrace, finalMeta]
    · rcases op2 with u | e2
      · simp [buildTrace, finalMeta]
      · simp [buildTrace, finalMeta]

theorem build_lifecycle_witness :
    buildTrace (ε := Unit) (σ := Nat) true none 5 = ([], BuildRes.mkdirExists)
    ∧ buildTrace (ε := Unit) (σ := Nat) false (some (Except.error ())) 5 =
        ([BEvent.mkdirOk, BEvent.wroteMeta 5 Status.running, BEvent.ranBuildOp,
          BEvent.wroteMeta 5 Status.stopped], BuildRes.raised ()) :=
  ⟨(build_lifecycle 5 () none).1, (build_lifecycle 5 () none).2.2.2.1⟩

/-- C5: `_read_meta` returns the parsed record when `_meta.yaml` exists and
parses as a mapping whose `spec` is a mapping and whose `status` is a
string; for a missing file, a parse failure, or a missing or mis-shaped
field it returns the default record `(spec: absent, status: done)`; it is a
total function, so no error propagates. -/
theorem read_meta_defaults (kvs sm : List (String × YVal)) (stv : String)
    (v : YVal) :
    (lookupFS kvs "spec" = some (YVal.mapV sm) →
      lookupFS kvs "status" = some (YVal.strV stv) →
      readMeta (some (some (YVal.mapV kvs))) = YVal.mapV kvs)
    ∧ readMeta none = defaultMeta
    ∧ readMeta (some none) = defaultMeta
    ∧ ((∀ kvs2, v ≠ YVal.mapV kvs2) → readMeta (some (some v)) = defaultMeta)
    ∧ ((∀ sm2, lookupFS kvs "spec" ≠ some (YVal.mapV sm2)) →
        readMeta (some (some (YVal.mapV kvs))) = defaultMeta)
    ∧ ((∀ st2, lookupFS kvs "status" ≠ some (YVal.strV st2)) →
        readMeta (some (some (YVal.mapV kvs))) = defaultMeta)
    ∧ (readMeta (some (some v)) = v ∨ readMeta (some (some v)) = defaultMeta)
    := by
  refine ⟨?_, rfl, rfl, ?_, ?_, ?_, ?_⟩
  · intro h1 h2
    simp only [readMeta]
    rw [h1, h2]
  · intro h
    cases v with
    | mapV kvs2 => exact absurd rfl (h kvs2)
    | null => rfl
    | boolV b => rfl
    | intV i => rfl
    | strV s2 => rfl
    | listV l => rfl
  · intro h
    simp only [readMeta]
  · intro h
    simp only [readMeta]
    rcases hsp : lookupFS kvs "spec" with _ | sv
    · rfl
    · cases sv with
      | mapV sm2 =>
        rcases hst : lookupFS kvs "status" with _ | tv
        · rfl
        · cases tv with
          | strV s2 => exact absurd hst (h s2)
          | null => rfl
          | boolV b => rfl
          | intV i => rfl
          | mapV m2 => rfl
          | listV l => rfl
      | null => rfl
      | boolV b => rfl
      | intV i => rfl
      | strV s2 => rfl
      | listV l => rfl
  · cases v with
    | mapV kvs2 =>
      simp only [readMeta]
      rcases hsp : lookupFS kvs2 "spec" with _ | sv
      · exact Or.inr rfl
      · cases sv with
        | mapV sm2 =>
          rcases hst : lookupFS kvs2 "status" with _ | tv
          · exact Or.inr rfl
          · cases tv with
            | strV s2 =>
              exact Or.inl rfl
            | null =>
              exact Or.inr rfl
            | boolV b =>
              exact Or.inr rfl
            | intV i =>
              exact Or.inr rfl
            | mapV m2 =>
              exact Or.inr rfl
            | listV l =>
              exact Or.inr rfl
        | null =>
          exact Or.inr rfl
        | boolV b =>
          exact Or.inr rfl
        | intV i =>
          exact Or.inr rfl
        | strV s2 =>
          exact Or.inr rfl
        | listV l =>
          exact Or.inr rfl
    | null => exact Or.inr rfl
    | boolV b => exact Or.inr rfl
    | intV i => exact Or.inr rfl
    | strV s2 => exact Or.inr rfl
    | listV l => exact Or.inr rfl

theorem read_meta_defaults_witness :
    readMeta (some (some (YVal.mapV
      [("spec", YVal.mapV [("type", YVal.strV "T")]),
       ("status", YVal.strV "done")]))) =
      YVal.mapV [("spec", YVal.mapV [("type", YVal.strV "T")]),
       ("status", YVal.strV "done")]
    ∧ readMeta none = defaultMeta
    ∧ readMeta (some (some (YVal.strV "garbage"))) = defaultMeta :=
  ⟨(read_meta_defaults
      [("spec", YVal.mapV [("type", YVal.strV "T")]),
       ("status", YVal.strV "done")]
      [("type", YVal.strV "T")] "done" YVal.null).1 rfl rfl,
   (read_meta_defaults [] [] "" YVal.null).2.1,
   (read_meta_defaults [] [] "" (YVal.strV "garbage")).2.2.2.1
     (fun _ h => YVal.noConfusion h)⟩

/-- A transient (retried) open attempt, used to locate the first decisive
attempt of the `_read_h5` loop. -/
def isTransient {D : Type} : OpenAttempt D → Bool
  | OpenAttempt.transient => true
  | _ => false

theorem readH5_replicate_transient {D : Type} (n : Nat)
    (l : List (OpenAttempt D)) :
    readH5 (List.replicate n OpenAttempt.transient ++ l) =
      ((readH5 l).1, (readH5 l).2 + n) := by
  induction n with
  | zero => simp [List.replicate]
  | succ n ih =>
    rw [List.replicate_succ, List.cons_append]
    simp only [readH5]
    rw [ih, Nat.add_assoc]

/-- C6: `_read_h5` propagates an open failure immediately when and only when
it is the file-does-not-exist case; on every other open failure it sleeps
1 ms (`readSleepMs`) and retries without bound, returning a live handle to
the `data` dataset once an open succeeds — after any number of transient
failures. While only transient failures occur it never returns. -/
theorem read_h5_retry {D : Type} (f : H5FileM D) (rest : List (OpenAttempt D))
    (n : Nat) :
    readH5 (OpenAttempt.noFile :: rest) = (some (Except.error ()), 0)
    ∧ readH5 (List.replicate n OpenAttempt.transient ++
        OpenAttempt.openOk f :: rest) = (some (Except.ok f.data), n)
    ∧ readH5 (List.replicate n OpenAttempt.transient ++
        OpenAttempt.noFile :: rest) = (some (Except.error ()), n)
    ∧ readH5 (List.replicate n (OpenAttempt.transient : OpenAttempt D)) =
        (none, n)
    ∧ (∀ l : List (OpenAttempt D), (readH5 l).1 = some (Except.error ()) →
        (l.dropWhile isTransient).head? = some OpenAttempt.noFile)
    ∧ readSleepMs = 1 := by
  refine ⟨rfl, ?_, ?_, ?_, ?_, rfl⟩
  · simp [readH5_replicate_transient, readH5]
  · simp [readH5_replicate_transient, readH5]
  · have h := readH5_replicate_transient n ([] : List (OpenAttempt D))
    rw [List.append_nil] at h
    rw [h]
    simp [readH5]
  · intro l
    induction l with
    | nil => intro h; exact absurd h (by simp [readH5])
    | cons hd tl ih =>
      intro h
      cases hd with
      | openOk f2 =>
        exfalso
        simp only [readH5] at h
        exact Except.noConfusion (Option.some.injEq _ _ ▸ h)
      | noFile => rfl
      | transient =>
        simp only [readH5] at h
        simp only [List.dropWhile, isTransient]
        exact ih h

theorem read_h5_retry_witness :
    readH5 (OpenAttempt.noFile :: ([] : List (OpenAttempt Nat))) =
      (some (Except.error ()), 0)
    ∧ readH5 (List.replicate 3 OpenAttempt.transient ++
        OpenAttempt.openOk (H5FileM.mk 42) :: ([] : List (OpenAttempt Nat))) =
        (some (Except.ok 42), 3)
    ∧ (([OpenAttempt.transient, OpenAttempt.noFile] :
          List (OpenAttempt Nat)).dropWhile isTransient).head? =
        some OpenAttempt.noFile :=
  ⟨(read_h5_retry (H5FileM.mk 42) [] 3).1,
   (read_h5_retry (H5FileM.mk 42) [] 3).2.1,
   (read_h5_retry (H5FileM.mk 42) [] 3).2.2.2.2.1
     [OpenAttempt.transient, OpenAttempt.noFile] rfl⟩

/-- C3: writing an array value into an artifact under a key that carries no
extension and has no existing entry, then reading the same key back, yields
an array equal to the written value in dtype and contents (here: the whole
stored array record is equal). -/
theorem set_get_roundtrip (fs : ArtDir) (key : String) (v : NDArray)
    (hsuf : pySuffix key = none)
    (hfresh1 : lookupFS fs (key ++ ".h5") = none)
    (hfresh2 : lookupFS fs key = none) :
    setItemArray fs key v = some (insertFS fs (key ++ ".h5") (Entry.arrE v))
    ∧ getItem (insertFS fs (key ++ ".h5") (Entry.arrE v)) key =
        some (GetRes.arrR v) := by
  have hws := withSuffixH5_of_no_suffix key hsuf
  constructor
  · unfold setItemArray
    rw [if_pos hsuf, hws, hfresh1]
    rfl
  · unfold getItem
    rw [hws, lookupFS_insertFS_self]

theorem set_get_roundtrip_witness :
    setItemArray [] "x" (NDArray.mk "float64" [3, 2] [1, 2, 3, 4, 5, 6]) =
      some (insertFS [] ("x" ++ ".h5")
        (Entry.arrE (NDArray.mk "float64" [3, 2] [1, 2, 3, 4, 5, 6])))
    ∧ getItem (insertFS [] ("x" ++ ".h5")
        (Entry.arrE (NDArray.mk "float64" [3, 2] [1, 2, 3, 4, 5, 6]))) "x" =
        some (GetRes.arrR (NDArray.mk "float64" [3, 2] [1, 2, 3, 4, 5, 6])) :=
  ⟨(set_get_roundtrip [] "x" (NDArray.mk "float64" [3, 2] [1, 2, 3, 4, 5, 6])
      rfl rfl rfl).1,
   (set_get_roundtrip [] "x" (NDArray.mk "float64" [3, 2] [1, 2, 3, 4, 5, 6])
      rfl rfl rfl).2⟩

/-- C4: starting from no entry, each `extend` call with an array of `n ≥ 1`
rows grows the stored dataset's first dimension by exactly `n` and places the
new rows after all previously stored rows, in order; a zero-row call leaves
an existing dataset's length and contents unchanged, and when nothing exists
it creates only the empty container; three single-row extends with rows
`[1]`, `[2]`, `[3]` from nothing yield the length-3 contents `[1, 2, 3]`. -/
theorem extend_accumulates (d : Dset) (v : NDArray) (n : Nat) (tr : List Nat)
    (hsh : v.shape = n :: tr) (hn : 1 ≤ n) (hrow : d.rowShape = tr)
    (hdt : d.dtype = v.dtype) :
    extendH5 (some d) v =
      some (Dset.mk d.dtype d.rowShape d.maxLen d.chunkRows (d.len + n)
        (d.data ++ v.data))
    ∧ (∀ w : NDArray, w.shape = 0 :: tr → extendH5 (some d) w = some d)
    ∧ (∀ (w : NDArray) (c : Nat), w.shape = 0 :: tr → chunkRowsOf tr = some c →
        extendH5 none w = some (Dset.mk w.dtype tr none c 0 []))
    ∧ (extendH5 none (NDArray.mk "int64" [1] [1]) >>= fun d1 =>
       extendH5 (some d1) (NDArray.mk "int64" [1] [2]) >>= fun d2 =>
       extendH5 (some d2) (NDArray.mk "int64" [1] [3])) =
        some (Dset.mk "int64" [] none 4096 3 [1, 2, 3]) := by
  refine ⟨?_, ?_, ?_, rfl⟩
  · unfold extendH5
    rw [hsh]
    have hn0 : n ≠ 0 := by omega
    simp only [if_neg hn0, if_pos (And.intro hrow hdt)]
  · intro w hw
    unfold extendH5
    rw [hw]
    rfl
  · intro w c hw hc
    unfold extendH5 createDset
    have hwt : w.shape.tail = tr := by
      rw [hw]
      rfl
    rw [hwt, hw, hc]
    rfl

theorem extend_accumulates_witness :
    extendH5 (some (Dset.mk "int64" [] none 4096 1 [7]))
      (NDArray.mk "int64" [2] [8, 9]) =
      some (Dset.mk "int64" [] none 4096 3 [7, 8, 9])
    ∧ extendH5 (some (Dset.mk "int64" [] none 4096 1 [7]))
        (NDArray.mk "int64" [0] []) =
        some (Dset.mk "int64" [] none 4096 1 [7])
    ∧ (extendH5 none (NDArray.mk "int64" [1] [1]) >>= fun d1 =>
       extendH5 (some d1) (NDArray.mk "int64" [1] [2]) >>= fun d2 =>
       extendH5 (some d2) (NDArray.mk "int64" [1] [3])) =
        some (Dset.mk "int64" [] none 4096 3 [1, 2, 3]) :=
  ⟨(extend_accumulates (Dset.mk "int64" [] none 4096 1 [7])
      (NDArray.mk "int64" [2] [8, 9]) 2 [] rfl (by decide) rfl rfl).1,
   (extend_accumulates (Dset.mk "int64" [] none 4096 1 [7])
      (NDArray.mk "int64" [2] [8, 9]) 2 [] rfl (by decide) rfl rfl).2.1
     (NDArray.mk "int64" [0] []) rfl,
   (extend_accumulates (Dset.mk "int64" [] none 4096 1 [7])
      (NDArray.mk "int64" [2] [8, 9]) 2 [] rfl (by decide) rfl rfl).2.2.2⟩

/-- C8: when `extend` creates a new container, the dataset has an unboundedly
resizable first dimension (`maxLen = none`), fixed trailing dimensions equal
to the value's trailing shape, initial length 0 (and no contents), the
value's element type, and a chunk shape whose first-axis extent is
`ceil(4096 / P) = (4096 + P - 1) / P` rows for `P` the product of the
trailing-dimension sizes; a 1-D value (empty trailing shape, `P = 1`) gets
4096-row chunks. -/
theorem extend_creation_geometry (v : NDArray) (n : Nat) (tr : List Nat)
    (hsh : v.shape = n :: tr) (hpos : ∀ x ∈ tr, 0 < x) :
    createDset v = some (Dset.mk v.dtype tr none
      ((2 ^ 12 + tr.prod - 1) / tr.prod) 0 [])
    ∧ (tr = [] → createDset v =
        some (Dset.mk v.dtype [] none 4096 0 [])) := by
  have hprod : tr.prod ≠ 0 := by
    intro h0
    rcases List.prod_eq_zero_iff.mp h0 with hmem
    exact absurd (hpos 0 hmem) (by omega)
  have hmain : createDset v = some (Dset.mk v.dtype tr none
      ((2 ^ 12 + tr.prod - 1) / tr.prod) 0 []) := by
    unfold createDset chunkRowsOf
    have hwt : v.shape.tail = tr := by
      rw [hsh]
      rfl
    rw [hwt, if_neg hprod]
  refine ⟨hmain, ?_⟩
  intro h0
  subst h0
  rw [hmain]
  norm_num

theorem extend_creation_geometry_witness :
    createDset (NDArray.mk "float32" [5, 3] []) =
      some (Dset.mk "float32" [3] none 1366 0 [])
    ∧ createDset (NDArray.mk "int64" [7] []) =
      some (Dset.mk "int64" [] none 4096 0 []) :=
  ⟨(extend_creation_geometry (NDArray.mk "float32" [5, 3] []) 5 [3] rfl
      (by decide)).1,
   (extend_creation_geometry (NDArray.mk "int64" [7] []) 7 [] rfl
      (by decide)).2 rfl⟩

/-- C10: the chunk-row computation `int(ceil(4096 / P))` performed when
`extend` creates a new container is well-defined exactly when every trailing
dimension of the value is positive (the empty trailing shape of a 1-D value
has product 1 and yields 4096); with any zero-sized trailing dimension the
computation divides by zero and creation fails, so `extend`'s creation path
is total only under the precondition that every trailing dimension is
nonzero. -/
theorem chunk_rows_totality (tr : List Nat) (dt : String) (n : Nat)
    (dat : List Int) :
    ((chunkRowsOf tr).isSome ↔ ∀ x ∈ tr, 0 < x)
    ∧ (0 ∈ tr → chunkRowsOf tr = none
        ∧ createDset (NDArray.mk dt (n :: tr) dat) = none
        ∧ extendH5 none (NDArray.mk dt (n :: tr) dat) = none)
    ∧ chunkRowsOf [] = some 4096
    ∧ ((∀ x ∈ tr, 0 < x) →
        chunkRowsOf tr = some ((2 ^ 12 + tr.prod - 1) / tr.prod)) := by
  have hiff : tr.prod = 0 ↔ 0 ∈ tr := List.prod_eq_zero_iff
  refine ⟨?_, ?_, rfl, ?_⟩
  · constructor
    · intro hs x hx
      by_contra hx0
      have hx00 : x = 0 := by omega
      subst hx00
      have hz : tr.prod = 0 := hiff.mpr hx
      unfold chunkRowsOf at hs
      rw [if_pos hz] at hs
      simp at hs
    · intro hpos
      have hprod : tr.prod ≠ 0 := fun h0 =>
        absurd (hpos 0 (hiff.mp h0)) (by omega)
      unfold chunkRowsOf
      rw [if_neg hprod]
      rfl
  · intro hmem
    have hz : tr.prod = 0 := hiff.mpr hmem
    have hcz : chunkRowsOf tr = none := by
      unfold chunkRowsOf
      rw [if_pos hz]
    have hcre : createDset (NDArray.mk dt (n :: tr) dat) = none := by
      unfold createDset
      have hwt : (NDArray.mk dt (n :: tr) dat).shape.tail = tr := rfl
      rw [hwt, hcz]
    refine ⟨hcz, hcre, ?_⟩
    unfold extendH5
    rw [show (NDArray.mk dt (n :: tr) dat).shape = n :: tr from rfl]
    rw [hcre]
  · intro hpos
    have hprod : tr.prod ≠ 0 := fun h0 =>
      absurd (hpos 0 (hiff.mp h0)) (by omega)
    unfold chunkRowsOf
    rw [if_neg hprod]

theorem chunk_rows_totality_witness :
    chunkRowsOf [0] = none
    ∧ createDset (NDArray.mk "int64" [2, 0] []) = none
    ∧ extendH5 none (NDArray.mk "int64" [2, 0] []) = none
    ∧ chunkRowsOf [] = some 4096
    ∧ chunkRowsOf [3] = some 1366 :=
  ⟨((chunk_rows_totality [0] "int64" 2 []).2.1 (by decide)).1,
   ((chunk_rows_totality [0] "int64" 2 []).2.1 (by decide)).2.1,
   ((chunk_rows_totality [0] "int64" 2 []).2.1 (by decide)).2.2,
   (chunk_rows_totality [0] "int64" 2 []).2.2.1,
   (chunk_rows_totality [3] "int64" 2 []).2.2.2 (by decide)⟩

/-- C1: configuration-only construction scans the direct entries of the
current root for one whose persisted spec equals the candidate's spec. When
some entry `p0` with spec match and final status `done` is preceded only by
entries that are not spec matches or are `stopped` matches, the construction
returns an artifact bound to `p0` without invoking the build operation
(for every build operation `op2`). When every spec match in the root is
`stopped` — in particular when no entry matches — it builds at the freshly
generated unused path (first conjunct: the path is not an existing entry);
consequently, constructing twice in sequence with identical configuration
returns the same directory path both times and runs the build operation
exactly once (second call: `found`, no build). -/
theorem conf_construction_caches {σ ε : Type} [DecidableEq σ] (tn : String)
    (s : σ) (st : RootDir σ) (op : Option (Except ε Unit))
    (hms : ∀ r ∈ st, r.2.spec = some s → r.2.status = Status.stopped)
    (hok : ∀ e, op ≠ some (Except.error e)) :
    newArtifactPath tn (st.map Prod.fst) ∉ st.map Prod.fst
    ∧ artifactFromConf tn s op st =
        some (st ++ [(newArtifactPath tn (st.map Prod.fst),
          MetaRec.mk (some s) Status.done)],
          ConfOutcome.built (newArtifactPath tn (st.map Prod.fst)))
    ∧ artifactFromConf tn s op
        (st ++ [(newArtifactPath tn (st.map Prod.fst),
          MetaRec.mk (some s) Status.done)]) =
        some (st ++ [(newArtifactPath tn (st.map Prod.fst),
          MetaRec.mk (some s) Status.done)],
          ConfOutcome.found (newArtifactPath tn (st.map Prod.fst)))
    ∧ (∀ (pre post : RootDir σ) (p0 : String) (op2 : Option (Except ε Unit)),
        (∀ r ∈ pre, r.2.spec = some s → r.2.status = Status.stopped) →
        artifactFromConf tn s op2
          (pre ++ (p0, MetaRec.mk (some s) Status.done) :: post) =
          some (pre ++ (p0, MetaRec.mk (some s) Status.done) :: post,
            ConfOutcome.found p0)) := by
  refine ⟨newArtifactPath_not_mem tn (st.map Prod.fst), ?_, ?_, ?_⟩
  · unfold artifactFromConf
    rw [scanRoot_eq_noMatch s st hms]
    rcases op with _ | op2
    · rfl
    · rcases op2 with e | u
      · exact absurd rfl (hok e)
      · rfl
  · unfold artifactFromConf
    rw [scanRoot_found_first_done s st []
      (newArtifactPath tn (st.map Prod.fst)) hms]
  · intro pre post p0 op2 hpre
    unfold artifactFromConf
    rw [scanRoot_found_first_done s pre post p0 hpre]

theorem conf_construction_caches_witness :
    (∀ r ∈ ([("Model_0000", MetaRec.mk (some 1) Status.stopped),
        ("other", MetaRec.mk (none : Option Nat) Status.done)] : RootDir Nat),
      r.2.spec = some 1 → r.2.status = Status.stopped)
    ∧ newArtifactPath "Model" ["Model_0000", "other"] = "Model_0001"
    ∧ artifactFromConf (ε := Unit) "Model" 1 none
        ([("Model_0000", MetaRec.mk (some 1) Status.stopped),
          ("other", MetaRec.mk (none : Option Nat) Status.done)]) =
        some ([("Model_0000", MetaRec.mk (some 1) Status.stopped),
          ("other", MetaRec.mk (none : Option Nat) Status.done)] ++
          [(newArtifactPath "Model"
            (([("Model_0000", MetaRec.mk (some 1) Status.stopped),
              ("other", MetaRec.mk (none : Option Nat) Status.done)] :
                RootDir Nat).map Prod.fst),
            MetaRec.mk (some 1) Status.done)],
          ConfOutcome.built (newArtifactPath "Model"
            (([("Model_0000", MetaRec.mk (some 1) Status.stopped),
              ("other", MetaRec.mk (none : Option Nat) Status.done)] :
                RootDir Nat).map Prod.fst)))
    ∧ artifactFromConf (ε := Unit) "Model" 1 none
        (([("Model_0000", MetaRec.mk (some 1) Status.stopped),
          ("other", MetaRec.mk (none : Option Nat) Status.done)] :
            RootDir Nat) ++
          [(newArtifactPath "Model"
            (([("Model_0000", MetaRec.mk (some 1) Status.stopped),
              ("other", MetaRec.mk (none : Option Nat) Status.done)] :
                RootDir Nat).map Prod.fst),
            MetaRec.mk (some 1) Status.done)]) =
        some (([("Model_0000", MetaRec.mk (some 1) Status.stopped),
          ("other", MetaRec.mk (none : Option Nat) Status.done)] :
            RootDir Nat) ++
          [(newArtifactPath "Model"
            (([("Model_0000", MetaRec.mk (some 1) Status.stopped),
              ("other", MetaRec.mk (none : Option Nat) Status.done)] :
                RootDir Nat).map Prod.fst),
            MetaRec.mk (some 1) Status.done)],
          ConfOutcome.found (newArtifactPath "Model"
            (([("Model_0000", MetaRec.mk (some 1) Status.stopped),
              ("other", MetaRec.mk (none : Option Nat) Status.done)] :
                RootDir Nat).map Prod.fst)))
    ∧ artifactFromConf (ε := Unit) "Model" 1 none
        ([("a", MetaRec.mk (some 1) Status.stopped)] ++
          ("hit", MetaRec.mk (some 1) Status.done) ::
          [("b", MetaRec.mk (some 1) Status.done)]) =
        some ([("a", MetaRec.mk (some 1) Status.stopped)] ++
          ("hit", MetaRec.mk (some 1) Status.done) ::
          [("b", MetaRec.mk (some 1) Status.done)],
          ConfOutcome.found "hit") :=
  ⟨by decide, by decide,
   (conf_construction_caches "Model" 1
     [("Model_0000", MetaRec.mk (some 1) Status.stopped),
      ("other", MetaRec.mk (none : Option Nat) Status.done)] none
     (by decide) (fun e h => Option.noConfusion h)).2.1,
   (conf_construction_caches "Model" 1
     [("Model_0000", MetaRec.mk (some 1) Status.stopped),
      ("other", MetaRec.mk (none : Option Nat) Status.done)] none
     (by decide) (fun e h => Option.noConfusion h)).2.2.1,
   (conf_construction_caches "Model" 1
     [("Model_0000", MetaRec.mk (some 1) Status.stopped),
      ("other", MetaRec.mk (none : Option Nat) Status.done)] none
     (by decide) (fun e h => Option.noConfusion h)).2.2.2
     [("a", MetaRec.mk (some 1) Status.stopped)]
     [("b", MetaRec.mk (some 1) Status.done)] "hit" none (by decide)⟩

end Artisan
